import Mathlib

/-!
Verification of the Caesar-cipher program in `src/capstone-main/abc.cpp`
against its natural-language specification.

Characters are modelled as their byte values (`Int`, in practice 0..255).
The C++ `%` on `int` is truncated modulo, which in Lean is `Int.tmod`;
the spec's normalized double modulo is modelled separately so the two can
be compared.
-/

/-- Model of C `isalpha` under the C locale: ASCII letters only
(`'A'..'Z'` is 65..90, `'a'..'z'` is 97..122). -/
def isalpha (c : Int) : Bool :=
  (65 ≤ c && c ≤ 90) || (97 ≤ c && c ≤ 122)

/-- Model of C `islower` under the C locale: `'a'..'z'`, i.e. 97..122. -/
def islower (c : Int) : Bool :=
  97 ≤ c && c ≤ 122

/-- The local `base` of the loop body: `islower(c) ? 'a' : 'A'`,
i.e. 97 for a lowercase letter and 65 otherwise. -/
def base (c : Int) : Int :=
  if islower c then 97 else 65

/-- Per-character transformation performed inside the loop of
`encryptCaesarCipher` in `abc.cpp`: for a letter, compute
`((c - base + key) % 26) + base` with C++ truncated `%` (`Int.tmod`);
otherwise push the character unchanged. -/
def encChar (key c : Int) : Int :=
  if isalpha c then Int.tmod (c - base c + key) 26 + base c
  else c

/-- Embedding of `encryptCaesarCipher` from `abc.cpp`: the loop pushes one
output character per input character, so it is the elementwise map of
`encChar` over the message. -/
def encryptCaesarCipher (message : List Int) (key : Int) : List Int :=
  message.map (encChar key)

/-- Per-character transformation written exactly as the specification's
formula demands (§4.1 and §9): the normalized double modulo
`((c - base + key) % 26 + 26) % 26 + base`, using a modulo that is
nonnegative on nonnegative inputs. -/
def specChar (key c : Int) : Int :=
  if isalpha c then ((c - base c + key) % 26 + 26) % 26 + base c
  else c

/-- The specification's `transform`: elementwise map of `specChar`. -/
def specTransform (message : List Int) (key : Int) : List Int :=
  message.map (specChar key)

/-- Observable outcome of one program run: the encrypted message printed
to standard output (if any), the diagnostic printed to standard error
(if any), and the process exit code. -/
structure ProgOutput where
  encryptedLine : Option (List Int)
  errLine : Option (List Int)
  exitCode : Nat
  deriving DecidableEq, Repr

/-- Embedding of `main` from `abc.cpp` as a function of the message line
and the parsed key token. `cin >> key` on a token that is not an integer
sets `key` to 0 (C++11 extraction failure) and `main` proceeds regardless:
it never tests the stream state, always calls `encryptCaesarCipher`,
always prints the `Encrypted message:` line, never writes to standard
error, and always returns 0. -/
def mainModel (message : List Int) (keyToken : Option Int) : ProgOutput :=
  let key : Int := keyToken.getD 0
  { encryptedLine := some (encryptCaesarCipher message key)
    errLine := none
    exitCode := 0 }

/-- The message "Shift" as byte values. -/
def shiftMsg : List Int := [83, 104, 105, 102, 116]

/-- The string "Rghzs" as byte values (the spec's expected output). -/
def rghzs : List Int := [82, 103, 104, 122, 115]

/-- The string "Rghes" as byte values (the actual output). -/
def rghes : List Int := [82, 103, 104, 101, 115]

/-- For a letter, `base c` is the start of its case's alphabet and the
letter lies within 26 positions of it. -/
theorem base_bounds (c : Int) (hA : isalpha c = true) :
    base c ≤ c ∧ c < base c + 26 := by
  unfold base
  simp only [isalpha, islower, Bool.or_eq_true, Bool.and_eq_true,
    decide_eq_true_eq] at hA ⊢
  split <;> omega

/-- For a nonnegative key, truncated and Euclidean modulo agree on the
letter offset, so `encChar` matches `specChar`. -/
theorem encChar_eq_specChar_of_nonneg (key c : Int) (hK : 0 ≤ key) :
    encChar key c = specChar key c := by
  unfold encChar specChar
  by_cases hA : isalpha c = true
  · rw [if_pos hA, if_pos hA]
    have hb := base_bounds c hA
    have hc : (0 : Int) ≤ c - base c + key := by omega
    rw [Int.tmod_eq_emod hc (by norm_num)]
    omega
  · rw [if_neg hA, if_neg hA]

/-- C1: the claim says every letter is emitted under the normalized double
modulo. The code uses a single truncated modulo, and at message "a"
(byte 97) with key -1 it emits byte 96 (a backtick), while the normalized
formula of the spec emits 122 (the letter z). -/
theorem C1_normalized_formula_fails :
    encryptCaesarCipher [97] (-1) = [96] ∧
      specTransform [97] (-1) = [122] ∧
      encryptCaesarCipher [97] (-1) ≠ specTransform [97] (-1) := by
  refine ⟨by decide, by decide, by decide⟩

/-- C2: the claim says a letter always maps to a letter of the same case.
At message "a" (byte 97, a letter) with key -1 the code emits byte 96,
which is not a letter at all. -/
theorem C2_case_preservation_fails :
    isalpha 97 = true ∧
      encryptCaesarCipher [97] (-1) = [96] ∧
      isalpha 96 = false := by
  refine ⟨by decide, by decide, by decide⟩

/-- C3: the claimed round trip fails. Encrypting "z" (byte 122) with
key 1 gives "a" (byte 97); encrypting that with key -1 gives byte 96,
not the original "z". -/
theorem C3_roundTrip_fails :
    encryptCaesarCipher (encryptCaesarCipher [122] 1) (-1) = [96] ∧
      encryptCaesarCipher (encryptCaesarCipher [122] 1) (-1) ≠ [122] := by
  refine ⟨by decide, by decide⟩

/-- C4 counterexample: the code does not map "Shift" with key -1 to
"Rghzs" as the claim states. -/
theorem C4_counterexample :
    encryptCaesarCipher shiftMsg (-1) ≠ rghzs := by decide

/-- C4 amended: "Shift" with key -1 maps to "Rghes" (S to R, h to g,
i to h, f to e, t to s); the spec's normalized formula agrees, so the
expected string "Rghzs" in the spec is simply wrong. -/
theorem C4_amended_shift :
    encryptCaesarCipher shiftMsg (-1) = rghes ∧
      specTransform shiftMsg (-1) = rghes := by
  refine ⟨by decide, by decide⟩

/-- C5: the claim says a bad key token leads to a standard-error message,
a non-zero exit, and no transformation. The embedded `main` has no error
branch: on extraction failure the key is 0, the transformation runs, the
encrypted line is printed, nothing goes to standard error, and the exit
code is 0. -/
theorem C5_no_error_path (message : List Int) :
    mainModel message none =
      { encryptedLine := some (encryptCaesarCipher message 0)
        errLine := none
        exitCode := 0 } := rfl

/-- C6: the transformation preserves length, and the empty message maps
to the empty sequence. -/
theorem C6_length_preserved (M : List Int) (K : Int) :
    (encryptCaesarCipher M K).length = M.length ∧
      encryptCaesarCipher [] K = [] := by
  refine ⟨?_, rfl⟩
  simp [encryptCaesarCipher]

/-- C7: the claimed key periodicity fails. At message "a" (byte 97),
key -1 emits byte 96 but key -1 + 26 = 25 emits byte 122, because the
truncated modulo is not periodic across zero. -/
theorem C7_periodicity_fails :
    encryptCaesarCipher [97] (-1) = [96] ∧
      encryptCaesarCipher [97] (-1 + 26) = [122] ∧
      encryptCaesarCipher [97] (-1) ≠ encryptCaesarCipher [97] (-1 + 26) := by
  refine ⟨by decide, by decide, by decide⟩

/-- C8: non-alphabetic characters are fixed points: at every position
whose character is not an ASCII letter, the output equals the input. -/
theorem C8_nonalpha_fixed (M : List Int) (K : Int) (i : Nat)
    (ha : isalpha (M.getD i 0) = false) :
    (encryptCaesarCipher M K).getD i 0 = M.getD i 0 := by
  induction M generalizing i with
  | nil => rfl
  | cons c cs ih =>
    cases i with
    | zero =>
      simp only [List.getD_cons_zero] at ha ⊢
      simp [encryptCaesarCipher, encChar, ha]
    | succ n =>
      simp only [encryptCaesarCipher, List.map_cons, List.getD_cons_succ] at ha ⊢
      exact ih n ha

/-- Witness for C8 at the concrete message "1" (byte 49, a digit) with
key 5 and position 0. -/
theorem C8_nonalpha_fixed_witness :
    isalpha (([49] : List Int).getD 0 0) = false ∧
      (encryptCaesarCipher [49] 5).getD 0 0 = ([49] : List Int).getD 0 0 :=
  ⟨by decide, C8_nonalpha_fixed [49] 5 0 (by decide)⟩

/-- C9: for a nonnegative key the letter offset `c - base + key` is
nonnegative, truncated and Euclidean modulo coincide, and the code's
single-modulo transformation equals the spec's normalized one. -/
theorem C9_single_mod_eq_normalized (M : List Int) (K : Int) (hK : 0 ≤ K) :
    encryptCaesarCipher M K = specTransform M K := by
  induction M with
  | nil => rfl
  | cons c cs ih =>
    simp only [encryptCaesarCipher, specTransform, List.map_cons] at ih ⊢
    rw [encChar_eq_specChar_of_nonneg K c hK, ih]

/-- Witness for C9 at the concrete message "Az" (bytes 65, 122) with
key 3. -/
theorem C9_single_mod_eq_normalized_witness :
    (0 : Int) ≤ 3 ∧ encryptCaesarCipher [65, 122] 3 = specTransform [65, 122] 3 :=
  ⟨by decide, C9_single_mod_eq_normalized [65, 122] 3 (by decide)⟩

/-- C10: the transformation is an elementwise map, hence a homomorphism
with respect to message concatenation. -/
theorem C10_append_hom (M1 M2 : List Int) (K : Int) :
    encryptCaesarCipher (M1 ++ M2) K =
      encryptCaesarCipher M1 K ++ encryptCaesarCipher M2 K := by
  simp [encryptCaesarCipher]
